import Mathlib

/-!
Shallow embedding of `heuristic_pedometer` (files `src/my_wearable/ble.py`,
`src/my_wearable/pedometer.py`) and verification of its specification claims.

Python strings are modelled as `List Char`; Python `int` as `Int`; read
traces from the serial transport as explicit lists of the values returned
by the read primitives.
-/

/-- Bool test: does `pat` occur at the head of `s`? (helper for `hasSub`). -/
def startsWithLC : List Char → List Char → Bool
  | [], _ => true
  | _ :: _, [] => false
  | a :: pa, b :: sb => a = b && startsWithLC pa sb

/-- Models Python's substring test `pat in s` for strings. -/
def hasSub (pat : List Char) : List Char → Bool
  | [] => startsWithLC pat []
  | b :: sb => startsWithLC pat (b :: sb) || hasSub pat sb

/-- The link-established wire marker `"OK+CONNAOK+CONN"` from `BLE.connect`. -/
def connMarker : List Char :=
  ['O', 'K', '+', 'C', 'O', 'N', 'N', 'A', 'O', 'K', '+', 'C', 'O', 'N', 'N']

/-- The confirmation wire marker `"#"` from `BLE.connect`. -/
def confMarker : List Char := ['#']

/-- The link-lost wire marker `"OK+LOST"` from `BLE.check_connection`. -/
def lostMarker : List Char := ['O', 'K', '+', 'L', 'O', 'S', 'T']

namespace BLE

/-- Outcome of `BLE.connect`: either confirmed after `cycles` read cycles, or
an `IOError` raised after `cycles` read cycles. -/
inductive ConnOutcome where
  | confirmed (cycles : Nat)
  | failed (cycles : Nat)
deriving DecidableEq

/-- The `while not confirmed and tries < max_tries` loop of `BLE.connect`
(`src/my_wearable/ble.py`).  Each iteration consumes one framed message
(the value returned by `read_line`; an exhausted trace models a silent
transport, whose `read_line` returns the empty string).  `rem` is
`max_tries - tries`, `used` the number of read cycles performed so far.
The `connected` flag is tracked exactly as in the source; it only selects
which command (`AT+CON<mac>` or `AT+NAME?`) is retransmitted, and commands
written to the transport do not influence the loop's control flow. -/
def connectAux : Nat → List (List Char) → Bool → Nat → ConnOutcome
  | 0, _, _, used => ConnOutcome.failed used
  | rem + 1, trace, connected, used =>
    let response := trace.headD []
    let connected := connected || hasSub connMarker response
    if hasSub confMarker response then ConnOutcome.confirmed (used + 1)
    else connectAux rem trace.tail connected (used + 1)

/-- `BLE.connect(peripheral_mac, max_tries)` at the read-cycle level:
`trace` lists the successive framed messages returned by `read_line`. -/
def connect (trace : List (List Char)) (maxTries : Nat) : ConnOutcome :=
  connectAux maxTries trace false 0

/-- The number of iterations performed by the
`while "OK+LOST" in msg and tries < max_tries` loop of
`BLE.check_connection`: the loop re-reads the backlog (values returned by
the successive `read_lines` calls, listed in `backlogs`) while the lost
marker persists and the attempt budget remains. -/
def ccIters : Nat → List Char → List (List Char) → Nat
  | 0, _, _ => 0
  | rem + 1, msg, backlogs =>
    if hasSub lostMarker msg then ccIters rem (backlogs.headD []) backlogs.tail + 1
    else 0

/-- `BLE.check_connection(msg, max_tries)`: returns `true` exactly when the
source raises its `IOError` ("Can't connect to Peripheral"), i.e. when the
final `tries >= max_tries` test passes.  The nested `connect` calls are
assumed to return (their own failure raises a different error and is
outside this claim); `backlogs` lists the values the successive
`read_lines` calls return. -/
def check_connection (msg : List Char) (maxTries : Nat)
    (backlogs : List (List Char)) : Bool :=
  maxTries ≤ ccIters maxTries msg backlogs

/-- The `i`-th message inspected by the `check_connection` loop: the initial
`msg` for `i = 0`, then the backlog returned by the `i`-th `read_lines`. -/
def ccMsgAt (msg : List Char) (backlogs : List (List Char)) : Nat → List Char
  | 0 => msg
  | i + 1 => backlogs.getD i []

lemma List.getD_tail_nat (l : List α) (j : Nat) (d : α) :
    l.tail.getD j d = l.getD (j + 1) d := by
  cases l <;> rfl

lemma connectAux_ok (k : Nat) :
    ∀ rem trace connected used, k < rem →
    (∀ j, j < k → hasSub confMarker (trace.getD j []) = false) →
    hasSub confMarker (trace.getD k []) = true →
    connectAux rem trace connected used = ConnOutcome.confirmed (used + k + 1) := by
  induction k with
  | zero =>
    intro rem trace connected used hk hpre hmark
    match rem, hk with
    | r + 1, _ =>
      have hhead : trace.headD [] = trace.getD 0 [] := by cases trace <;> rfl
      simp only [connectAux, hhead, hmark, if_pos]
  | succ k ih =>
    intro rem trace connected used hk hpre hmark
    match rem, hk with
    | r + 1, hk =>
      have h0 : hasSub confMarker (trace.getD 0 []) = false := hpre 0 (Nat.succ_pos k)
      have hhead : trace.headD [] = trace.getD 0 [] := by cases trace <;> rfl
      simp only [connectAux, hhead, h0, Bool.false_eq_true, if_false]
      have := ih r trace.tail
        (connected || hasSub connMarker (trace.getD 0 [])) (used + 1)
        (Nat.lt_of_succ_lt_succ hk)
        (fun j hj => by
          rw [List.getD_tail_nat]
          exact hpre (j + 1) (Nat.succ_lt_succ hj))
        (by rw [List.getD_tail_nat]; exact hmark)
      rw [this]
      congr 1
      omega

lemma connectAux_fail :
    ∀ rem trace connected used,
    (∀ j, j < rem → hasSub confMarker (trace.getD j []) = false) →
    connectAux rem trace connected used = ConnOutcome.failed (used + rem) := by
  intro rem
  induction rem with
  | zero => intro trace connected used _; rfl
  | succ r ih =>
    intro trace connected used hpre
    have h0 : hasSub confMarker (trace.getD 0 []) = false := hpre 0 (Nat.succ_pos r)
    have hhead : trace.headD [] = trace.getD 0 [] := by cases trace <;> rfl
    simp only [connectAux, hhead, h0, Bool.false_eq_true, if_false]
    rw [ih trace.tail _ (used + 1)
      (fun j hj => by rw [List.getD_tail_nat]; exact hpre (j + 1) (Nat.succ_lt_succ hj))]
    congr 1
    omega

end BLE

namespace BLE

lemma ccMsgAt_shift (msg : List Char) (backlogs : List (List Char)) :
    ∀ i, ccMsgAt (backlogs.headD []) backlogs.tail i = ccMsgAt msg backlogs (i + 1) := by
  intro i
  cases i with
  | zero => cases backlogs <;> rfl
  | succ j => exact List.getD_tail_nat backlogs j []

end BLE

/-- C1: for every transport trace, `connect(address, max_attempts)` terminates
successfully on the first read cycle whose framed message contains the
confirmation marker `"#"`, and if no read cycle within the budget yields the
marker, it raises `ConnectionFailed` after performing exactly `max_attempts`
read cycles, no more and no fewer. -/
theorem connect_confirmation_spec (trace : List (List Char)) (maxTries : Nat) :
    (∀ k, k < maxTries →
      (∀ j, j < k → hasSub confMarker (trace.getD j []) = false) →
      hasSub confMarker (trace.getD k []) = true →
      BLE.connect trace maxTries = BLE.ConnOutcome.confirmed (k + 1)) ∧
    ((∀ j, j < maxTries → hasSub confMarker (trace.getD j []) = false) →
      BLE.connect trace maxTries = BLE.ConnOutcome.failed maxTries) := by
  constructor
  · intro k hk hpre hmark
    have := BLE.connectAux_ok k maxTries trace false 0 hk hpre hmark
    simpa [BLE.connect] using this
  · intro hpre
    have := BLE.connectAux_fail maxTries trace false 0 hpre
    simpa [BLE.connect] using this

/-- Witness for C1: the scripted trace of §8 (link marker on cycle 2,
confirmation on cycle 3, `max_attempts = 5`) succeeds in exactly 3 cycles,
and a silent transport fails after exactly 4 of 4 cycles. -/
theorem connect_confirmation_spec_witness :
    BLE.connect [[], connMarker, ['a', '#']] 5 = BLE.ConnOutcome.confirmed 3 ∧
    BLE.connect [] 4 = BLE.ConnOutcome.failed 4 := by
  constructor
  · exact (connect_confirmation_spec [[], connMarker, ['a', '#']] 5).1 2
      (by decide) (by decide) (by decide)
  · exact (connect_confirmation_spec [] 4).2 (by decide)

/-- C2 counterexample: with `max_attempts = 1` and a backlog that is clean
after the single reconnect iteration (the marker disappears on the final
allowed attempt), `check_connection` still raises: the source's final test
is `tries >= max_tries`, not a re-inspection of the marker. -/
theorem check_connection_last_attempt_raises :
    BLE.check_connection lostMarker 1 [[]] = true ∧
    hasSub lostMarker [] = false := by
  decide

/-- C2 amended: `check_connection(message, max_attempts)` raises
`ReconnectFailed` iff the link-lost marker `"OK+LOST"` is present in the
initial message and in every backlog inspected at the start of each of the
`max_attempts` allowed iterations — i.e. the loop runs out of budget.  In
particular, when the marker disappears exactly on the final allowed attempt
it still raises; it returns normally exactly when the marker disappears
after strictly fewer than `max_attempts` reconnect iterations. -/
theorem check_connection_raises_iff (msg : List Char) (n : Nat)
    (backlogs : List (List Char)) :
    BLE.check_connection msg n backlogs = true ↔
      ∀ i, i < n → hasSub lostMarker (BLE.ccMsgAt msg backlogs i) = true := by
  induction n generalizing msg backlogs with
  | zero => simp [BLE.check_connection, BLE.ccIters]
  | succ n ih =>
    by_cases hl : hasSub lostMarker msg = true
    · have hstep : BLE.check_connection msg (n + 1) backlogs = true ↔
          BLE.check_connection (backlogs.headD []) n backlogs.tail = true := by
        simp [BLE.check_connection, BLE.ccIters, hl, Nat.succ_le_succ_iff]
      rw [hstep, ih]
      constructor
      · intro h i hi
        cases i with
        | zero => exact hl
        | succ j =>
          rw [← BLE.ccMsgAt_shift]
          exact h j (Nat.lt_of_succ_lt_succ hi)
      · intro h i hi
        rw [BLE.ccMsgAt_shift msg backlogs i]
        exact h (i + 1) (Nat.succ_lt_succ hi)
    · have hiters : BLE.ccIters (n + 1) msg backlogs = 0 := by
        simp [BLE.ccIters, hl]
      constructor
      · intro h
        exact absurd h (by simp [BLE.check_connection, hiters])
      · intro h
        exact absurd (h 0 (Nat.succ_pos n)) (by simpa [BLE.ccMsgAt] using hl)

/-- Witness for C2's amended theorem: a message whose marker persists through
both allowed iterations makes `check_connection` raise. -/
theorem check_connection_raises_iff_witness :
    BLE.check_connection lostMarker 2 [lostMarker, []] = true :=
  (check_connection_raises_iff lostMarker 2 [lostMarker, []]).mpr (by decide)

/-- Models Python `str.split(sep)` for a one-character separator: always
returns at least one (possibly empty) field. -/
def splitOn (sep : Char) : List Char → List (List Char)
  | [] => [[]]
  | c :: rest =>
    if c = sep then [] :: splitOn sep rest
    else (c :: (splitOn sep rest).headD []) :: (splitOn sep rest).tail

/-- ASCII decimal digit test. -/
def isDigitChar (c : Char) : Bool := 48 ≤ c.toNat && c.toNat ≤ 57

/-- Numeric value of an ASCII digit character. -/
def digitVal (c : Char) : Nat := c.toNat - 48

/-- Accumulating decimal parser over a digit string. -/
def parseNatAux : List Char → Nat → Option Nat
  | [], acc => some acc
  | c :: r, acc => if isDigitChar c then parseNatAux r (acc * 10 + digitVal c) else none

/-- Parses a non-empty all-digit string as a natural number. -/
def parseNatDigits (s : List Char) : Option Nat :=
  if s.isEmpty then none else parseNatAux s 0

/-- The restriction of the Python builtin `int(s)` to an optional ASCII
sign followed by ASCII decimal digits; `none` models the `ValueError`
raised on rejection.  The builtin additionally accepts surrounding
whitespace, single underscores between digits and non-ASCII decimal
digits, a domain no fixed executable model captures exactly; therefore
every statement that quantifies over arbitrary file contents abstracts the
builtin as a parameter `P` (see `parseLineWith`), and `pyInt` is applied
only to inputs on which it provably coincides with the builtin: all-digit
fields, the serializer's sign+digit output, and fields such as `"x"`
containing a character both reject. -/
def pyInt : List Char → Option Int
  | [] => none
  | c :: r =>
    if c = '-' then (parseNatDigits r).map fun (n : Nat) => -(n : Int)
    else if c = '+' then (parseNatDigits r).map fun (n : Nat) => (n : Int)
    else (parseNatDigits (c :: r)).map fun (n : Nat) => (n : Int)

/-- Python class-level state of `Pedometer`: the class attributes
`__time_buffer`, `__data_buffer` and `__steps` are process-wide mutable
defaults shared by every instance that has not shadowed them. -/
structure PedClass where
  time0 : List Int
  data0 : List Int
  steps0 : Int
deriving DecidableEq

/-- Initial class attribute values (`__time_buffer = []`, `__data_buffer = []`,
`__steps = 0`). -/
def PedClass.init : PedClass := ⟨[], [], 0⟩

/-- Python instance state of `Pedometer`: `__init__` assigns only `_maxlen`
and `_file_flag`; the buffers and step count stay resolved through the class
attribute (field `none`) until an assignment shadows them with an
instance attribute (field `some _`). -/
structure Pedometer where
  maxlen : Int
  file_flag : Bool
  own_time : Option (List Int)
  own_data : Option (List Int)
  own_steps : Option Int
deriving DecidableEq

namespace Pedometer

/-- `Pedometer.__init__(maxlen, file_flag)`. -/
def init (maxlen : Int) (file_flag : Bool) : Pedometer :=
  ⟨maxlen, file_flag, none, none, none⟩

/-- Python attribute lookup for `self.__time_buffer`. -/
def time (w : PedClass) (p : Pedometer) : List Int := p.own_time.getD w.time0

/-- Python attribute lookup for `self.__data_buffer`. -/
def data (w : PedClass) (p : Pedometer) : List Int := p.own_data.getD w.data0

/-- Python attribute lookup for `self.__steps`. -/
def steps (w : PedClass) (p : Pedometer) : Int := p.own_steps.getD w.steps0

/-- In-place mutation (`.append(...)`) of the list `self.__time_buffer`
resolves to: the shared class list when the instance has not shadowed the
attribute, else the instance's own list. -/
def mutTime (w : PedClass) (p : Pedometer) (f : List Int → List Int) :
    PedClass × Pedometer :=
  match p.own_time with
  | some l => (w, { p with own_time := some (f l) })
  | none => ({ w with time0 := f w.time0 }, p)

/-- In-place mutation of the list `self.__data_buffer`. -/
def mutData (w : PedClass) (p : Pedometer) (f : List Int → List Int) :
    PedClass × Pedometer :=
  match p.own_data with
  | some l => (w, { p with own_data := some (f l) })
  | none => ({ w with data0 := f w.data0 }, p)

/-- `Pedometer.append(msg_str)`: full-buffer guard, then
`received = msg_str.split(',')`, then `__time_buffer.append(int(received[0]))`
and `__data_buffer.append(int(received[1]))` inside one `try`.  The first
append executes before `int(received[1])` (or the `received[1]` index) can
raise, so a message whose second field is malformed still mutates the time
buffer before the `except` swallows the error. -/
def append (w : PedClass) (p : Pedometer) (msg : List Char) :
    PedClass × Pedometer :=
  if ((time w p).length : Int) = p.maxlen ∨ ((data w p).length : Int) = p.maxlen then
    (w, p)
  else
    let received := splitOn ',' msg
    match pyInt (received.headD []) with
    | none => (w, p)
    | some t =>
      let wp := mutTime w p (fun l => l ++ [t])
      match pyInt (received.getD 1 []) with
      | none => wp
      | some v => mutData wp.1 wp.2 (fun l => l ++ [v])

/-- `Pedometer.reset()`: assigns fresh empty lists to the instance attributes
`self.__time_buffer` and `self.__data_buffer`; the statement `__steps = 0`
binds a local variable, so neither the instance nor the class step count
changes, and the class-level buffers are likewise untouched. -/
def reset (p : Pedometer) : Pedometer :=
  { p with own_time := some [], own_data := some [] }

end Pedometer

/-- C3 is a code bug: on the failing input `"5,x"` (first field parses as an
integer, second does not), `append` on a fresh pedometer appends `5` to the
timestamp buffer before the parse failure of the second field is caught, so
the two buffers desynchronise instead of staying unchanged. -/
theorem append_partial_mutation_bug :
    (Pedometer.time (Pedometer.append PedClass.init (Pedometer.init 500 true)
        ['5', ',', 'x']).1
      (Pedometer.append PedClass.init (Pedometer.init 500 true)
        ['5', ',', 'x']).2) = [5] ∧
    (Pedometer.data (Pedometer.append PedClass.init (Pedometer.init 500 true)
        ['5', ',', 'x']).1
      (Pedometer.append PedClass.init (Pedometer.init 500 true)
        ['5', ',', 'x']).2) = [] := by
  decide

/-- C4 is a code bug: `reset()` clears both buffers but the statement
`__steps = 0` assigns a local variable rather than `self.__steps`, so a
pedometer whose step count is 3 still reports 3 after `reset()`. -/
theorem reset_keeps_steps_bug :
    Pedometer.time PedClass.init
        (Pedometer.reset { Pedometer.init 500 true with own_steps := some 3 }) = [] ∧
    Pedometer.data PedClass.init
        (Pedometer.reset { Pedometer.init 500 true with own_steps := some 3 }) = [] ∧
    Pedometer.steps PedClass.init
        (Pedometer.reset { Pedometer.init 500 true with own_steps := some 3 }) = 3 := by
  decide

/-- C9 is a code bug: the buffers are mutable class attributes, so two
freshly constructed pedometers share them; after `append("1,2")` through the
first instance, the second (untouched) instance observes a timestamp buffer
`[1]` and value buffer `[2]` instead of its own empty state. -/
theorem shared_class_buffer_bug :
    Pedometer.time PedClass.init (Pedometer.init 500 true) = [] ∧
    (Pedometer.time (Pedometer.append PedClass.init (Pedometer.init 500 true)
        ['1', ',', '2']).1 (Pedometer.init 500 true)) = [1] ∧
    (Pedometer.data (Pedometer.append PedClass.init (Pedometer.init 500 true)
        ['1', ',', '2']).1 (Pedometer.init 500 true)) = [2] := by
  decide

/-- Whitespace test for Python `str.rstrip()` (space, tab, newline, carriage
return, vertical tab, form feed). -/
def isSpaceChar (c : Char) : Bool :=
  c = ' ' || c = '\t' || c = '\n' || c = '\r' || c.toNat = 11 || c.toNat = 12

/-- Models Python `str.rstrip()`. -/
def rstrip (l : List Char) : List Char := (l.reverse.dropWhile isSpaceChar).reverse

/-- Decimal digits of `n`, least significant first (empty for `0`). -/
def natDigitsRev (n : Nat) : List Nat :=
  if h : n = 0 then [] else n % 10 :: natDigitsRev (n / 10)
termination_by n
decreasing_by exact Nat.div_lt_self (Nat.pos_of_ne_zero h) (by norm_num)

/-- ASCII character of a decimal digit. -/
def digitChar (d : Nat) : Char := Char.ofNat (48 + d)

/-- Models Python `str(n)` for a non-negative integer. -/
def natToChars (n : Nat) : List Char :=
  if n = 0 then ['0'] else ((natDigitsRev n).map digitChar).reverse

/-- Models Python `str(i)` for an integer (as used by
`"{},{}\n".format(...)` in `Pedometer.save_file`). -/
def intToChars (i : Int) : List Char :=
  if i < 0 then '-' :: natToChars i.natAbs else natToChars i.toNat

lemma natDigitsRev_zero : natDigitsRev 0 = [] := by
  rw [natDigitsRev]
  simp

lemma natDigitsRev_lt_ten (n : Nat) : ∀ d ∈ natDigitsRev n, d < 10 := by
  induction n using Nat.strong_induction_on with
  | _ n ih =>
    rw [natDigitsRev]
    split
    · intro d hd; simp at hd
    · rename_i hn
      intro d hd
      rcases List.mem_cons.mp hd with h | h
      · subst h; exact Nat.mod_lt _ (by norm_num)
      · exact ih (n / 10) (Nat.div_lt_self (Nat.pos_of_ne_zero hn) (by norm_num)) d h

lemma natDigitsRev_foldr (n : Nat) :
    (natDigitsRev n).foldr (fun d a => a * 10 + d) 0 = n := by
  induction n using Nat.strong_induction_on with
  | _ n ih =>
    rw [natDigitsRev]
    split
    · rename_i hn; simp [hn]
    · rename_i hn
      simp only [List.foldr_cons]
      rw [ih (n / 10) (Nat.div_lt_self (Nat.pos_of_ne_zero hn) (by norm_num))]
      omega

lemma natDigitsRev_ne_nil {n : Nat} (h : n ≠ 0) : natDigitsRev n ≠ [] := by
  rw [natDigitsRev]
  split
  · omega
  · exact List.cons_ne_nil _ _

lemma digitChar_spec : ∀ d, d < 10 →
    isDigitChar (digitChar d) = true ∧ digitVal (digitChar d) = d ∧
    digitChar d ≠ ',' ∧ digitChar d ≠ '-' ∧ digitChar d ≠ '+' ∧
    isSpaceChar (digitChar d) = false := by
  decide

lemma parseNatAux_map_digitChar :
    ∀ (ds : List Nat) (acc : Nat), (∀ d ∈ ds, d < 10) →
    parseNatAux (ds.map digitChar) acc =
      some (ds.foldl (fun a d => a * 10 + d) acc) := by
  intro ds
  induction ds with
  | nil => intro acc _; rfl
  | cons d t ih =>
    intro acc hd
    have h := digitChar_spec d (hd d (List.mem_cons_self d t))
    simp only [List.map_cons, parseNatAux, h.1, if_true, h.2.1, List.foldl_cons]
    exact ih (acc * 10 + d)
      (fun e he => hd e (List.mem_cons_of_mem _ he))

lemma parseNatDigits_natToChars (n : Nat) : parseNatDigits (natToChars n) = some n := by
  by_cases h : n = 0
  · subst h; decide
  · unfold natToChars
    rw [if_neg h]
    have hmapped : ((natDigitsRev n).map digitChar).reverse =
        (natDigitsRev n).reverse.map digitChar := (List.map_reverse _ _).symm
    rw [hmapped]
    have hne : (natDigitsRev n).reverse.map digitChar ≠ [] := by
      simp [List.reverse_eq_nil_iff, natDigitsRev_ne_nil h]
    unfold parseNatDigits
    rw [if_neg (by simpa [List.isEmpty_iff] using hne)]
    rw [parseNatAux_map_digitChar _ 0
      (fun d hd => natDigitsRev_lt_ten n d (List.mem_reverse.mp hd))]
    rw [List.foldl_reverse, natDigitsRev_foldr]

lemma natToChars_chars (n : Nat) : ∀ c ∈ natToChars n,
    isDigitChar c = true ∧ c ≠ ',' ∧ isSpaceChar c = false := by
  intro c hc
  unfold natToChars at hc
  split at hc
  · simp at hc; subst hc; exact ⟨by decide, by decide, by decide⟩
  · rw [List.mem_reverse, List.mem_map] at hc
    obtain ⟨d, hd, rfl⟩ := hc
    have h := digitChar_spec d (natDigitsRev_lt_ten n d hd)
    exact ⟨h.1, h.2.2.1, h.2.2.2.2.2⟩

lemma intToChars_chars (i : Int) : ∀ c ∈ intToChars i,
    c ≠ ',' ∧ isSpaceChar c = false := by
  intro c hc
  unfold intToChars at hc
  split at hc
  · rcases List.mem_cons.mp hc with h | h
    · subst h; exact ⟨by decide, by decide⟩
    · have := natToChars_chars _ c h; exact ⟨this.2.1, this.2.2⟩
  · have := natToChars_chars _ c hc; exact ⟨this.2.1, this.2.2⟩

lemma pyInt_of_digits (s : List Char) (hne : s ≠ [])
    (hall : ∀ c ∈ s, isDigitChar c = true) :
    pyInt s = (parseNatDigits s).map fun (n : Nat) => (n : Int) := by
  match s, hne with
  | c :: r, _ =>
    have hc : isDigitChar c = true := hall c (List.mem_cons_self c r)
    simp only [pyInt]
    rw [if_neg (by rintro rfl; exact absurd hc (by decide)),
      if_neg (by rintro rfl; exact absurd hc (by decide))]

lemma pyInt_intToChars (i : Int) : pyInt (intToChars i) = some i := by
  unfold intToChars
  split
  · rename_i hneg
    simp only [pyInt]
    rw [if_true, parseNatDigits_natToChars]
    simp only [Option.map_some']
    congr 1
    omega
  · rename_i hneg
    have hne : natToChars i.toNat ≠ [] := by
      unfold natToChars
      split
      · exact List.cons_ne_nil _ _
      · rename_i h
        simp [List.reverse_eq_nil_iff, natDigitsRev_ne_nil h]
    rw [pyInt_of_digits _ hne (fun c hc => (natToChars_chars _ c hc).1),
      parseNatDigits_natToChars]
    simp only [Option.map_some']
    congr 1
    omega

lemma rstrip_eq_self (l : List Char) (h : ∀ c ∈ l, isSpaceChar c = false) :
    rstrip l = l := by
  unfold rstrip
  have : l.reverse.dropWhile isSpaceChar = l.reverse := by
    cases hr : l.reverse with
    | nil => rfl
    | cons c t =>
      have hc : isSpaceChar c = false := by
        apply h
        rw [← List.mem_reverse, hr]
        exact List.mem_cons_self c t
      simp [List.dropWhile, hc]
  rw [this, List.reverse_reverse]

lemma splitOn_ne_nil (sep : Char) (l : List Char) : splitOn sep l ≠ [] := by
  cases l with
  | nil => exact List.cons_ne_nil _ _
  | cons c rest =>
    simp only [splitOn]
    split <;> exact List.cons_ne_nil _ _

lemma splitOn_no_sep (sep : Char) (l : List Char) (h : ∀ c ∈ l, c ≠ sep) :
    splitOn sep l = [l] := by
  induction l with
  | nil => rfl
  | cons c rest ih =>
    simp only [splitOn]
    rw [if_neg (h c (List.mem_cons_self c rest)),
      ih (fun e he => h e (List.mem_cons_of_mem _ he))]
    rfl

lemma splitOn_append (sep : Char) (a b : List Char) (ha : ∀ c ∈ a, c ≠ sep) :
    splitOn sep (a ++ sep :: b) = a :: splitOn sep b := by
  induction a with
  | nil => simp [splitOn]
  | cons c t ih =>
    show splitOn sep (c :: (t ++ sep :: b)) = _
    simp only [splitOn]
    rw [if_neg (ha c (List.mem_cons_self c t)),
      ih (fun e he => ha e (List.mem_cons_of_mem _ he))]
    rfl

/-- One line written by `Pedometer.save_file`:
`"{},{}\n".format(time[i], data[i])` without its trailing newline (the file
is modelled as its list of newline-separated lines). -/
def serializeSample (t v : Int) : List Char := intToChars t ++ ',' :: intToChars v

/-- The per-line body of `Pedometer.load_file`, with the builtin `int`
abstracted as the parameter `P`:
`vals = line.rstrip().split(',')` followed by `int(vals[0])` and
`int(vals[1])`.  `none` models the exception propagated out of `load_file`
(a `ValueError` from a field `int` rejects, or an `IndexError` from a
single-field line); fields past the second are ignored, exactly as in the
source.  Statements about arbitrary file contents are proved for every
`P`, so they hold in particular for the builtin's actual semantics. -/
def parseLineWith (P : List Char → Option Int) (line : List Char) :
    Option (Int × Int) :=
  if (splitOn ',' (rstrip line)).length < 2 then none
  else (P ((splitOn ',' (rstrip line)).headD [])).bind fun t =>
    (P ((splitOn ',' (rstrip line)).getD 1 [])).map fun v => (t, v)

/-- Spec-side characterisation of a line `load_file` rejects, relative to
the same model `P` of the builtin `int`: fewer than two comma-separated
fields, or a first or second field on which `int` fails. -/
def badLineWith (P : List Char → Option Int) (line : List Char) : Bool :=
  if (splitOn ',' (rstrip line)).length < 2 then true
  else (P ((splitOn ',' (rstrip line)).headD [])).isNone ||
    (P ((splitOn ',' (rstrip line)).getD 1 [])).isNone

namespace Pedometer

/-- The line-reading loop of `Pedometer.load_file`, with the builtin `int`
abstracted as `P`: parses each line in order; `none` models the exception
escaping the loop. -/
def load_linesWith (P : List Char → Option Int) :
    List (List Char) → Option (List (Int × Int))
  | [] => some []
  | l :: rest =>
    (parseLineWith P l).bind fun s =>
      (load_linesWith P rest).map fun ps => s :: ps

/-- `Pedometer.load_file(filename)`, with the builtin `int` abstracted as
`P`: assigns fresh instance buffers from the parsed lines and sets
`_maxlen` to the number of lines read; the class attributes are untouched.
`none` models the propagated parse exception. -/
def load_fileWith (P : List Char → Option Int) (w : PedClass) (p : Pedometer)
    (lines : List (List Char)) : Option (PedClass × Pedometer) :=
  (load_linesWith P lines).map fun ps =>
    (w, { p with own_time := some (ps.map Prod.fst),
                 own_data := some (ps.map Prod.snd),
                 maxlen := (ps.length : Int) })

/-- `Pedometer.load_file(filename)` with `int` instantiated to the
sign+digits parser (exact on the concrete inputs it is evaluated at). -/
def load_file (w : PedClass) (p : Pedometer) (lines : List (List Char)) :
    Option (PedClass × Pedometer) :=
  load_fileWith pyInt w p lines

/-- `Pedometer.save_file(filename)`: writes `"{},{}\n"` per index of the
time buffer; `none` models the `IndexError` raised when the data buffer is
shorter than the time buffer. -/
def save_file (w : PedClass) (p : Pedometer) : Option (List (List Char)) :=
  if (data w p).length < (time w p).length then none
  else some (((time w p).zip (data w p)).map fun s => serializeSample s.1 s.2)

end Pedometer

lemma parseLine_serialize (t v : Int) :
    parseLineWith pyInt (serializeSample t v) = some (t, v) := by
  have hns : ∀ c ∈ intToChars t ++ ',' :: intToChars v, isSpaceChar c = false := by
    intro c hc
    rcases List.mem_append.mp hc with h | h
    · exact (intToChars_chars t c h).2
    · rcases List.mem_cons.mp h with h | h
      · subst h; decide
      · exact (intToChars_chars v c h).2
  have hvals : splitOn ',' (rstrip (intToChars t ++ ',' :: intToChars v)) =
      [intToChars t, intToChars v] := by
    rw [rstrip_eq_self _ hns,
      splitOn_append ',' _ _ (fun c hc => (intToChars_chars t c hc).1),
      splitOn_no_sep ',' _ (fun c hc => (intToChars_chars v c hc).1)]
  unfold parseLineWith serializeSample
  rw [hvals]
  simp [pyInt_intToChars]

lemma load_lines_serialize (ps : List (Int × Int)) :
    Pedometer.load_linesWith pyInt (ps.map fun s => serializeSample s.1 s.2) =
      some ps := by
  induction ps with
  | nil => rfl
  | cons s rest ih => simp [Pedometer.load_linesWith, parseLine_serialize, ih]

/-- C5: for every buffer holding paired (timestamp, value) samples, `save`
to a file followed by `load` from that file reproduces exactly the original
ordered sample sequence (round-trip identity). -/
theorem save_load_round_trip (w : PedClass) (p : Pedometer)
    (h : (Pedometer.time w p).length = (Pedometer.data w p).length) :
    ∃ lines p', Pedometer.save_file w p = some lines ∧
      Pedometer.load_file w p lines = some (w, p') ∧
      Pedometer.time w p' = Pedometer.time w p ∧
      Pedometer.data w p' = Pedometer.data w p := by
  refine ⟨((Pedometer.time w p).zip (Pedometer.data w p)).map
      (fun s => serializeSample s.1 s.2),
    { p with
        own_time := some (((Pedometer.time w p).zip (Pedometer.data w p)).map Prod.fst),
        own_data := some (((Pedometer.time w p).zip (Pedometer.data w p)).map Prod.snd),
        maxlen := ((((Pedometer.time w p).zip (Pedometer.data w p)).length : Nat) : Int) },
    ?_, ?_, ?_, ?_⟩
  · unfold Pedometer.save_file
    rw [if_neg (by omega)]
  · unfold Pedometer.load_file Pedometer.load_fileWith
    rw [load_lines_serialize]
    rfl
  · simp only [Pedometer.time, Option.getD_some]
    exact List.map_fst_zip _ _ h.le
  · simp only [Pedometer.data, Option.getD_some]
    exact List.map_snd_zip _ _ h.ge

/-- A concrete two-sample pedometer used to witness the round trip. -/
def rtSample : Pedometer :=
  { maxlen := 5, file_flag := true, own_time := some [1, -2],
    own_data := some [10, 20], own_steps := none }

/-- Witness for C5: the round trip holds on a concrete two-sample buffer. -/
theorem save_load_round_trip_witness :
    (Pedometer.time PedClass.init rtSample).length =
      (Pedometer.data PedClass.init rtSample).length ∧
    ∃ lines p', Pedometer.save_file PedClass.init rtSample = some lines ∧
      Pedometer.load_file PedClass.init rtSample lines = some (PedClass.init, p') ∧
      Pedometer.time PedClass.init p' = Pedometer.time PedClass.init rtSample ∧
      Pedometer.data PedClass.init p' = Pedometer.data PedClass.init rtSample :=
  ⟨by decide, save_load_round_trip PedClass.init rtSample (by decide)⟩

/-- C6 counterexample: a line with three comma-separated integer fields is
accepted by `load_file` (the extra field is silently ignored), with buffers
`[1]` and `[2]`; the claim requires `MalformedFile` for any line without
exactly two integer fields. -/
theorem load_accepts_three_integer_fields :
    (splitOn ',' ['1', ',', '2', ',', '3']).length = 3 ∧
    Pedometer.load_file PedClass.init (Pedometer.init 0 true)
        [['1', ',', '2', ',', '3']] =
      some (PedClass.init,
        { maxlen := 1, file_flag := true, own_time := some [1],
          own_data := some [2], own_steps := none }) := by
  decide

lemma parseLineWith_none_iff (P : List Char → Option Int) (l : List Char) :
    parseLineWith P l = none ↔ badLineWith P l = true := by
  unfold parseLineWith badLineWith
  split
  · simp
  · cases ha : P ((splitOn ',' (rstrip l)).headD []) <;>
      cases hb : P ((splitOn ',' (rstrip l)).getD 1 []) <;> simp [ha, hb]

lemma load_linesWith_none_iff (P : List Char → Option Int)
    (lines : List (List Char)) :
    Pedometer.load_linesWith P lines = none ↔
      ∃ l ∈ lines, badLineWith P l = true := by
  induction lines with
  | nil => simp [Pedometer.load_linesWith]
  | cons l rest ih =>
    simp only [Pedometer.load_linesWith]
    constructor
    · intro h
      cases hp : parseLineWith P l with
      | none => exact ⟨l, List.mem_cons_self _ _, (parseLineWith_none_iff P l).mp hp⟩
      | some s =>
        rw [hp, Option.some_bind, Option.map_eq_none'] at h
        obtain ⟨l', hl', hbad⟩ := ih.mp h
        exact ⟨l', List.mem_cons_of_mem _ hl', hbad⟩
    · rintro ⟨l', hl', hbad⟩
      rcases List.mem_cons.mp hl' with rfl | hmem
      · rw [(parseLineWith_none_iff P l').mpr hbad]
        rfl
      · cases hp : parseLineWith P l with
        | none => rfl
        | some s =>
          rw [Option.some_bind, Option.map_eq_none']
          exact ih.mpr ⟨l', hmem, hbad⟩

/-- C6 amended: `load` raises `MalformedFile` iff some line, after
stripping trailing whitespace and splitting on commas, has fewer than two
fields or a first or second field on which the builtin `int` fails; fields
past the second are ignored, so lines with more than two integer fields
are accepted rather than rejected.  Proved for every model `P` of the
builtin `int` — the builtin also accepts whitespace-padded,
underscore-grouped and non-ASCII-digit numerals, so no fixed executable
parser captures it exactly — and therefore the characterisation holds for
the builtin's actual semantics. -/
theorem load_malformed_iff (P : List Char → Option Int) (w : PedClass)
    (p : Pedometer) (lines : List (List Char)) :
    Pedometer.load_fileWith P w p lines = none ↔
      ∃ l ∈ lines, badLineWith P l = true := by
  unfold Pedometer.load_fileWith
  rw [Option.map_eq_none']
  exact load_linesWith_none_iff P lines

/-- Witness for C6's amended theorem: a file whose only line has a single
non-integer field is rejected. -/
theorem load_malformed_iff_witness :
    Pedometer.load_fileWith pyInt PedClass.init (Pedometer.init 0 true)
      [['x']] = none :=
  (load_malformed_iff pyInt PedClass.init (Pedometer.init 0 true) [['x']]).mpr
    ⟨['x'], by decide, by decide⟩

/-!
Filter pipeline.  The source stages call `scipy.signal.detrend`,
`scipy.signal.lfilter`, `np.gradient` and `scipy.signal.butter`; the library
algorithms are embedded here over `ℚ` (the claims settled about them concern
series lengths and error conditions, which are independent of the float
representation).
-/

/-- One output sample of the `scipy.signal.lfilter` difference equation
`a[0]*y[n] = sum(b[k]*x[n-k]) - sum(a[k]*y[n-k], k >= 1)`. -/
def lfilterStep (b a x ys : List ℚ) (n : Nat) : ℚ :=
  (((List.range b.length).map fun k =>
      if k ≤ n then b.getD k 0 * x.getD (n - k) 0 else 0).sum -
    ((List.range a.length).map fun k =>
      if 1 ≤ k ∧ k ≤ n then a.getD k 0 * ys.getD (n - k) 0 else 0).sum) /
  a.getD 0 0

/-- `scipy.signal.lfilter(b, a, x)`: produces one output sample per input
sample. -/
def lfilter (b a x : List ℚ) : List ℚ :=
  (List.range x.length).foldl (fun ys n => ys ++ [lfilterStep b a x ys n]) []

/-- Slope of the least-squares line through `(i, x[i])`, as fitted by
`scipy.signal.detrend` (type `'linear'`); `ℚ` division by zero is `0`,
matching the minimal-norm fit on a single point (residual `0`). -/
def detrendSlope (x : List ℚ) : ℚ :=
  ((x.length : ℚ) * ((List.range x.length).map fun (i : Nat) => (i : ℚ) * x.getD i 0).sum -
      ((List.range x.length).map fun (i : Nat) => (i : ℚ)).sum * x.sum) /
    ((x.length : ℚ) * ((List.range x.length).map fun (i : Nat) => (i : ℚ) * (i : ℚ)).sum -
      ((List.range x.length).map fun (i : Nat) => (i : ℚ)).sum *
        ((List.range x.length).map fun (i : Nat) => (i : ℚ)).sum)

/-- Intercept of the least-squares line through `(i, x[i])`. -/
def detrendIntercept (x : List ℚ) : ℚ :=
  (x.sum - detrendSlope x * ((List.range x.length).map fun (i : Nat) => (i : ℚ)).sum) /
    (x.length : ℚ)

/-- `scipy.signal.detrend(x)` (linear type): subtracts the least-squares
line from the series. -/
def detrend (x : List ℚ) : List ℚ :=
  (List.range x.length).map fun i =>
    x.getD i 0 - (detrendIntercept x + detrendSlope x * (i : ℚ))

/-- `np.gradient(x)` for a 1-d array: first-order one-sided differences at
the two ends, central differences in the interior.  NumPy raises
`ValueError` ("at least 2 elements are required") on arrays with fewer than
two samples, modelled by `none`. -/
def np_gradient (x : List ℚ) : Option (List ℚ) :=
  if x.length < 2 then none
  else some ((List.range x.length).map fun i =>
    if i = 0 then x.getD 1 0 - x.getD 0 0
    else if i = x.length - 1 then x.getD (x.length - 1) 0 - x.getD (x.length - 2) 0
    else (x.getD (i + 1) 0 - x.getD (i - 1) 0) / 2)

namespace Pedometer

/-- `Pedometer.__lowpass_filter(cutoff)` runs `sig.lfilter(b, a, data)` with
the 3rd-order Butterworth coefficients `b, a = sig.butter(3, cutoff)`.  The
coefficient values are irrational floats; they are taken as parameters here
because the claims about this stage depend only on the difference-equation
structure, never on the coefficient values. -/
def lowpass_filter (b a : List ℚ) (x : List ℚ) : List ℚ := lfilter b a x

/-- `Pedometer.__smoothing_filter(N)`: `sig.lfilter(boxcar(N+1)/(N+1), 1, data)`. -/
def smoothing_filter (N : Nat) (x : List ℚ) : List ℚ :=
  lfilter (List.replicate (N + 1) (1 / ((N : ℚ) + 1))) [1] x

/-- `Pedometer.__demean_filter()`: `sig.detrend(data)`. -/
def demean_filter (x : List ℚ) : List ℚ := detrend x

/-- `Pedometer.__filter_pedometer()`: demean, smooth with window 5, take
`np.gradient`, then low-pass with the Butterworth coefficients `b, a`. -/
def filter_pedometer (b a : List ℚ) (x : List ℚ) : Option (List ℚ) :=
  (np_gradient (smoothing_filter 4 (demean_filter x))).map fun g =>
    lowpass_filter b a g

end Pedometer

lemma lfilter_length (b a x : List ℚ) : (lfilter b a x).length = x.length := by
  have key : ∀ (l : List Nat) (init : List ℚ),
      (l.foldl (fun ys n => ys ++ [lfilterStep b a x ys n]) init).length =
        init.length + l.length := by
    intro l
    induction l with
    | nil => intro init; simp
    | cons n t ih =>
      intro init
      rw [List.foldl_cons, ih]
      simp
      omega
  have := key (List.range x.length) []
  simpa [lfilter] using this

lemma detrend_length (x : List ℚ) : (detrend x).length = x.length := by
  simp [detrend]

lemma np_gradient_of_two_le {x : List ℚ} (h : 2 ≤ x.length) :
    ∃ g, np_gradient x = some g ∧ g.length = x.length := by
  refine ⟨(List.range x.length).map fun i =>
      if i = 0 then x.getD 1 0 - x.getD 0 0
      else if i = x.length - 1 then x.getD (x.length - 1) 0 - x.getD (x.length - 2) 0
      else (x.getD (i + 1) 0 - x.getD (i - 1) 0) / 2, ?_, by simp⟩
  unfold np_gradient
  rw [if_neg (by omega)]

/-- C7 counterexample: on the one-sample series `[3]`, the gradient stage
raises NumPy's `ValueError` instead of producing a length-1 series, and the
whole pipeline therefore errors as well (shown with placeholder low-pass
coefficients, which the error does not depend on). -/
theorem gradient_stage_errors_on_singleton :
    np_gradient [(3 : ℚ)] = none ∧
    Pedometer.filter_pedometer [1, 1, 1, 1] [1, 1, 1, 1] [(3 : ℚ)] = none := by
  constructor
  · rfl
  · unfold Pedometer.filter_pedometer
    have h1 : (Pedometer.smoothing_filter 4 (Pedometer.demean_filter [(3 : ℚ)])).length = 1 := by
      rw [Pedometer.smoothing_filter, lfilter_length, Pedometer.demean_filter,
        detrend_length]
      rfl
    unfold np_gradient
    rw [if_pos (by omega)]
    rfl

/-- C7 amended: for every input series of length at least 2, each stage of
the filter pipeline (detrend, moving-average smoothing of window length 5,
discrete gradient, 3rd-order Butterworth low-pass) produces an output series
of the same length as its input, and the full pipeline maps the series to a
filtered series of identical length.  (For series of length 0 or 1 the
gradient stage raises instead.) -/
theorem filter_pipeline_preserves_length (b a : List ℚ) (x : List ℚ)
    (h : 2 ≤ x.length) :
    (Pedometer.demean_filter x).length = x.length ∧
    (Pedometer.smoothing_filter 4 x).length = x.length ∧
    (∃ g, np_gradient x = some g ∧ g.length = x.length) ∧
    (Pedometer.lowpass_filter b a x).length = x.length ∧
    (∃ y, Pedometer.filter_pedometer b a x = some y ∧ y.length = x.length) := by
  refine ⟨detrend_length x, lfilter_length _ _ x, np_gradient_of_two_le h,
    lfilter_length b a x, ?_⟩
  have hlen : (Pedometer.smoothing_filter 4 (Pedometer.demean_filter x)).length =
      x.length := by
    rw [Pedometer.smoothing_filter, lfilter_length, Pedometer.demean_filter,
      detrend_length]
  obtain ⟨g, hg, hglen⟩ := @np_gradient_of_two_le
    (Pedometer.smoothing_filter 4 (Pedometer.demean_filter x)) (by omega)
  refine ⟨Pedometer.lowpass_filter b a g, ?_, ?_⟩
  · unfold Pedometer.filter_pedometer
    rw [hg]
    rfl
  · rw [Pedometer.lowpass_filter, lfilter_length, hglen, hlen]

/-- Witness for C7's amended theorem at the two-sample series `[0, 1]` with
placeholder low-pass coefficients. -/
theorem filter_pipeline_preserves_length_witness :
    2 ≤ ([(0 : ℚ), 1]).length ∧
    ((Pedometer.demean_filter [(0 : ℚ), 1]).length = ([(0 : ℚ), 1]).length ∧
      (Pedometer.smoothing_filter 4 [(0 : ℚ), 1]).length = ([(0 : ℚ), 1]).length ∧
      (∃ g, np_gradient [(0 : ℚ), 1] = some g ∧ g.length = ([(0 : ℚ), 1]).length) ∧
      (Pedometer.lowpass_filter [1, 1, 1, 1] [1, 1, 1, 1] [(0 : ℚ), 1]).length =
        ([(0 : ℚ), 1]).length ∧
      (∃ y, Pedometer.filter_pedometer [1, 1, 1, 1] [1, 1, 1, 1] [(0 : ℚ), 1] =
          some y ∧ y.length = ([(0 : ℚ), 1]).length)) :=
  ⟨by decide,
    filter_pipeline_preserves_length [1, 1, 1, 1] [1, 1, 1, 1] [(0 : ℚ), 1] (by decide)⟩

namespace BLE

/-- The `while (c != eol) and (time() - t1 < timeout)` loop of
`BLE.read_line`.  Each event in the trace is the value one `read()` call
returned (`none` models the empty string: no byte waiting, or an invalid
utf-8 byte) paired with the wall-clock value `time()` observed at that
iteration's loop-condition check.  The delimiter test short-circuits before
the deadline test, exactly as in the source; the character read in the
iteration that exits is never appended.  An exhausted trace models a
transport with no further read events. -/
def read_lineAux (eol : Char) (timeout t1 : ℚ) :
    List (Option Char × ℚ) → List Char → List Char
  | [], acc => acc
  | (c, t) :: rest, acc =>
    if c = some eol then acc
    else if timeout ≤ t - t1 then acc
    else read_lineAux eol timeout t1 rest (acc ++ c.toList)

/-- `BLE.read_line(eol, timeout)`: `t1 = time()` at entry, then the read
loop.  The source then calls `check_connection(msg)` on the accumulated
message before returning it; that call never modifies the message, so
whenever `read_line` returns (rather than propagating a reconnection
error) it returns exactly this accumulation. -/
def read_line (eol : Char) (timeout t1 : ℚ)
    (events : List (Option Char × ℚ)) : List Char :=
  read_lineAux eol timeout t1 events []

lemma read_lineAux_not_mem (eol : Char) (timeout t1 : ℚ) :
    ∀ (events : List (Option Char × ℚ)) (acc : List Char), eol ∉ acc →
    eol ∉ read_lineAux eol timeout t1 events acc := by
  intro events
  induction events with
  | nil => intro acc h; exact h
  | cons e rest ih =>
    intro acc h
    obtain ⟨c, t⟩ := e
    simp only [read_lineAux]
    split
    · exact h
    · rename_i hc
      split
      · exact h
      · apply ih
        intro hmem
        rcases List.mem_append.mp hmem with h1 | h1
        · exact h h1
        · cases c with
          | none => simp at h1
          | some d =>
            simp only [Option.toList, List.mem_singleton] at h1
            exact hc (by rw [h1])

lemma read_lineAux_delim (eol : Char) (timeout t1 : ℚ) :
    ∀ (pre rest : List (Option Char × ℚ)) (t : ℚ) (acc : List Char),
    (∀ e ∈ pre, e.1 ≠ some eol ∧ e.2 - t1 < timeout) →
    read_lineAux eol timeout t1 (pre ++ (some eol, t) :: rest) acc =
      acc ++ pre.filterMap Prod.fst := by
  intro pre
  induction pre with
  | nil =>
    intro rest t acc _
    simp [read_lineAux]
  | cons e p ih =>
    intro rest t acc hpre
    obtain ⟨c, tc⟩ := e
    have he := hpre (c, tc) (List.mem_cons_self _ _)
    simp only [List.cons_append, read_lineAux]
    rw [if_neg he.1, if_neg (by push_neg; exact he.2), List.append_eq,
      ih rest t _ (fun e hmem => hpre e (List.mem_cons_of_mem _ hmem))]
    cases c <;> simp [Option.toList, List.filterMap_cons]

lemma read_lineAux_timeout (eol : Char) (timeout t1 : ℚ) :
    ∀ (pre rest : List (Option Char × ℚ)) (c : Option Char) (t : ℚ)
      (acc : List Char),
    (∀ e ∈ pre, e.1 ≠ some eol ∧ e.2 - t1 < timeout) →
    c ≠ some eol → timeout ≤ t - t1 →
    read_lineAux eol timeout t1 (pre ++ (c, t) :: rest) acc =
      acc ++ pre.filterMap Prod.fst := by
  intro pre
  induction pre with
  | nil =>
    intro rest c t acc _ hc ht
    simp only [List.nil_append, read_lineAux]
    rw [if_neg hc, if_pos ht]
    simp
  | cons e p ih =>
    intro rest c t acc hpre hc ht
    obtain ⟨c0, tc⟩ := e
    have he := hpre (c0, tc) (List.mem_cons_self _ _)
    simp only [List.cons_append, read_lineAux]
    rw [if_neg he.1, if_neg (by push_neg; exact he.2), List.append_eq,
      ih rest c t _ (fun e hmem => hpre e (List.mem_cons_of_mem _ hmem)) hc ht]
    cases c0 <;> simp [Option.toList, List.filterMap_cons]

end BLE

/-- C10: for every transport character sequence, the message `read_line`
returns never contains the delimiter: every appended character was read
while unequal to the delimiter.  When the delimiter is read within the
timeout budget, the accumulated characters before it are returned with the
delimiter consumed and excluded; when the deadline expires first, the
partial (possibly empty) accumulation up to that iteration is returned. -/
theorem read_line_framing_spec (eol : Char) (timeout t1 : ℚ)
    (events pre rest : List (Option Char × ℚ)) (c : Option Char) (t : ℚ) :
    eol ∉ BLE.read_line eol timeout t1 events ∧
    ((∀ e ∈ pre, e.1 ≠ some eol ∧ e.2 - t1 < timeout) →
      BLE.read_line eol timeout t1 (pre ++ (some eol, t) :: rest) =
        pre.filterMap Prod.fst) ∧
    ((∀ e ∈ pre, e.1 ≠ some eol ∧ e.2 - t1 < timeout) → c ≠ some eol →
      timeout ≤ t - t1 →
      BLE.read_line eol timeout t1 (pre ++ (c, t) :: rest) =
        pre.filterMap Prod.fst) := by
  refine ⟨BLE.read_lineAux_not_mem eol timeout t1 events []
    (List.not_mem_nil eol), ?_, ?_⟩
  · intro hpre
    have := BLE.read_lineAux_delim eol timeout t1 pre rest t [] hpre
    simpa [BLE.read_line] using this
  · intro hpre hc ht
    have := BLE.read_lineAux_timeout eol timeout t1 pre rest c t [] hpre hc ht
    simpa [BLE.read_line] using this

/-- Witness for C10 on a concrete trace: two in-budget reads `'a'`, `''`
followed by the delimiter yield `"a"`; the same prefix followed by an
out-of-budget read of `'b'` also yields `"a"` with the late character
dropped. -/
theorem read_line_framing_spec_witness :
    '\n' ∉ BLE.read_line '\n' 1 0 [(some 'a', 0), (none, 0), (some '\n', 0)] ∧
    ((∀ e ∈ [((some 'a' : Option Char), (0 : ℚ)), (none, 0)],
        e.1 ≠ some '\n' ∧ e.2 - 0 < 1) →
      BLE.read_line '\n' 1 0
          ([((some 'a' : Option Char), (0 : ℚ)), (none, 0)] ++ [(some '\n', 2)]) =
        [((some 'a' : Option Char), (0 : ℚ)), (none, 0)].filterMap Prod.fst) ∧
    ((∀ e ∈ [((some 'a' : Option Char), (0 : ℚ)), (none, 0)],
        e.1 ≠ some '\n' ∧ e.2 - 0 < 1) → (some 'b' : Option Char) ≠ some '\n' →
      (1 : ℚ) ≤ 2 - 0 →
      BLE.read_line '\n' 1 0
          ([((some 'a' : Option Char), (0 : ℚ)), (none, 0)] ++ [(some 'b', 2)]) =
        [((some 'a' : Option Char), (0 : ℚ)), (none, 0)].filterMap Prod.fst) :=
  read_line_framing_spec '\n' 1 0 [(some 'a', 0), (none, 0), (some '\n', 0)]
    [(some 'a', 0), (none, 0)] [] (some 'b') 2

/-!
Peak detection.  `Pedometer.__find_peaks` calls `sig.find_peaks(data)[0]`
with no constraints; scipy's underlying `_local_maxima_1d` scan treats a
flat plateau bounded by strictly smaller values on both sides as one peak
and reports the plateau's middle index (rounded down) — documented in
`scipy.signal.find_peaks` ("for flat peaks the index of the middle sample
is returned").
-/

/-- Inner plateau scan of `_local_maxima_1d`: starting at `j`, skip forward
while `j < iMax` and `x[j]` still equals the candidate value `v`.  The fuel
is structural; callers pass `iMax - j + 1` or more. -/
def plateauEnd (x : List ℚ) (v : ℚ) (iMax : Nat) : Nat → Nat → Nat
  | 0, j => j
  | fuel + 1, j =>
    if j < iMax ∧ x.getD j 0 = v then plateauEnd x v iMax fuel (j + 1) else j

/-- Outer scan of `_local_maxima_1d`: for `i` in `[1, iMax)`, a rising edge
`x[i-1] < x[i]` followed (after any plateau) by a strictly smaller sample
records the plateau midpoint `(left_edge + right_edge) // 2` and resumes
after the plateau. -/
def findPeaksAux (x : List ℚ) (iMax : Nat) : Nat → Nat → List Nat
  | 0, _ => []
  | fuel + 1, i =>
    if i < iMax then
      if x.getD (i - 1) 0 < x.getD i 0 then
        if x.getD (plateauEnd x (x.getD i 0) iMax (iMax - i) (i + 1)) 0 <
            x.getD i 0 then
          (i + (plateauEnd x (x.getD i 0) iMax (iMax - i) (i + 1) - 1)) / 2 ::
            findPeaksAux x iMax fuel
              (plateauEnd x (x.getD i 0) iMax (iMax - i) (i + 1) + 1)
        else findPeaksAux x iMax fuel (i + 1)
      else findPeaksAux x iMax fuel (i + 1)
    else []

/-- `sig.find_peaks(x)[0]`: the `_local_maxima_1d` scan over `[1, n-1)`. -/
def sig_find_peaks (x : List ℚ) : List Nat :=
  findPeaksAux x (x.length - 1) x.length 1

namespace Pedometer

/-- `Pedometer.__find_peaks()`: runs the filter pipeline on the buffer and
stores `sig.find_peaks(filtered)[0]` (with `b`, `a` the low-pass
coefficients). -/
def find_peaks (b a : List ℚ) (x : List ℚ) : Option (List Nat) :=
  (filter_pedometer b a x).map sig_find_peaks

end Pedometer

/-- The claim's minimal local-maximum test for index `i` of `x`: the value
is strictly greater than both immediate neighbours. -/
def isStrictMax (x : List ℚ) (i : Nat) : Bool :=
  decide (0 < i) && decide (i + 1 < x.length) &&
    decide (x.getD (i - 1) 0 < x.getD i 0) &&
    decide (x.getD (i + 1) 0 < x.getD i 0)

/-- The claim's spec-side peak set: all indices that are strict local
maxima. -/
def strictPeaks (x : List ℚ) : List Nat :=
  (List.range x.length).filter (isStrictMax x)

/-- No two consecutive samples are equal (no plateaus). -/
def AdjacentDistinct (x : List ℚ) : Prop :=
  ∀ i, i < x.length - 1 → x.getD i 0 ≠ x.getD (i + 1) 0

/-- The series is monotonic (non-decreasing or non-increasing). -/
def MonotonicList (x : List ℚ) : Prop :=
  (∀ i, i < x.length - 1 → x.getD i 0 ≤ x.getD (i + 1) 0) ∨
    (∀ i, i < x.length - 1 → x.getD (i + 1) 0 ≤ x.getD i 0)

/-- C8 counterexample: on the plateau series `[0, 1, 1, 0]` scipy's
`find_peaks` reports the plateau midpoint `1`, although index `1` is not
strictly greater than both neighbours (its right neighbour is equal), so
the returned set is not the set of minimal strict local maxima, which is
empty here. -/
theorem find_peaks_plateau_counterexample :
    sig_find_peaks [0, 1, 1, 0] = [1] ∧
    isStrictMax [(0 : ℚ), 1, 1, 0] 1 = false ∧
    strictPeaks [(0 : ℚ), 1, 1, 0] = [] := by
  decide

lemma plateauEnd_ge (x : List ℚ) (v : ℚ) (iMax : Nat) :
    ∀ fuel j, j ≤ plateauEnd x v iMax fuel j := by
  intro fuel
  induction fuel with
  | zero => intro j; exact Nat.le_refl j
  | succ f ih =>
    intro j
    simp only [plateauEnd]
    split
    · exact Nat.le_trans (Nat.le_succ j) (ih (j + 1))
    · exact Nat.le_refl j

lemma plateauEnd_le (x : List ℚ) (v : ℚ) (iMax : Nat) :
    ∀ fuel j, j ≤ iMax → plateauEnd x v iMax fuel j ≤ iMax := by
  intro fuel
  induction fuel with
  | zero => intro j h; exact h
  | succ f ih =>
    intro j h
    simp only [plateauEnd]
    split
    · rename_i hcond
      exact ih (j + 1) hcond.1
    · exact h

lemma plateauEnd_stop (x : List ℚ) (v : ℚ) (iMax : Nat) (fuel j : Nat)
    (h : ¬(j < iMax ∧ x.getD j 0 = v)) :
    plateauEnd x v iMax fuel j = j := by
  cases fuel with
  | zero => rfl
  | succ f => simp only [plateauEnd, if_neg h]

lemma findPeaksAux_nil (x : List ℚ) (iMax : Nat)
    (hno : ∀ i, 0 < i → i < iMax →
      ¬(x.getD (i - 1) 0 < x.getD i 0 ∧
        x.getD (plateauEnd x (x.getD i 0) iMax (iMax - i) (i + 1)) 0 <
          x.getD i 0)) :
    ∀ fuel i, 0 < i → findPeaksAux x iMax fuel i = [] := by
  intro fuel
  induction fuel with
  | zero => intro i _; rfl
  | succ f ih =>
    intro i hi
    simp only [findPeaksAux]
    split
    · rename_i hlt
      split
      · rename_i hrise
        split
        · rename_i hfall
          exact absurd ⟨hrise, hfall⟩ (hno i hi hlt)
        · exact ih (i + 1) (by omega)
      · exact ih (i + 1) (by omega)
    · rfl

lemma getD_chain_le (x : List ℚ)
    (hmono : ∀ i, i < x.length - 1 → x.getD i 0 ≤ x.getD (i + 1) 0) :
    ∀ i j, i ≤ j → j < x.length → x.getD i 0 ≤ x.getD j 0 := by
  intro i j hij
  induction hij with
  | refl => intro _; exact le_refl _
  | @step m hm ih =>
    intro h
    exact le_trans (ih (by omega)) (hmono m (by omega))

/-- Part of C8's amended behaviour: on any monotonic series, `find_peaks`
returns the empty set (helper for the claim theorem). -/
lemma sig_find_peaks_monotone (x : List ℚ) (hmono : MonotonicList x) :
    sig_find_peaks x = [] := by
  unfold sig_find_peaks
  apply findPeaksAux_nil x (x.length - 1) _ x.length 1 (by omega)
  intro i hi hlt
  rcases hmono with hup | hdown
  · rintro ⟨_, hfall⟩
    have hge : i + 1 ≤ plateauEnd x (x.getD i 0) (x.length - 1)
        (x.length - 1 - i) (i + 1) := plateauEnd_ge _ _ _ _ _
    have hle : plateauEnd x (x.getD i 0) (x.length - 1)
        (x.length - 1 - i) (i + 1) ≤ x.length - 1 :=
      plateauEnd_le _ _ _ _ _ (by omega)
    have hchain : x.getD i 0 ≤
        x.getD (plateauEnd x (x.getD i 0) (x.length - 1)
          (x.length - 1 - i) (i + 1)) 0 :=
      getD_chain_le x hup i _ (by omega) (by omega)
    exact absurd hfall (not_lt.mpr hchain)
  · rintro ⟨hrise, _⟩
    have := hdown (i - 1) (by omega)
    have heq : i - 1 + 1 = i := by omega
    rw [heq] at this
    exact absurd hrise (not_lt.mpr this)

lemma findPeaksAux_strict (x : List ℚ) (hadj : AdjacentDistinct x) :
    ∀ fuel i, 0 < i → x.length - 1 ≤ fuel + i →
    findPeaksAux x (x.length - 1) fuel i =
      (List.range' i (x.length - 1 - i)).filter (isStrictMax x) := by
  intro fuel
  induction fuel with
  | zero =>
    intro i hi hfuel
    rw [show x.length - 1 - i = 0 by omega]
    rfl
  | succ f ih =>
    intro i hi hfuel
    by_cases hlt : i < x.length - 1
    case neg =>
      simp only [findPeaksAux, if_neg hlt]
      rw [show x.length - 1 - i = 0 by omega]
      rfl
    case pos =>
      have hia : plateauEnd x (x.getD i 0) (x.length - 1)
          (x.length - 1 - i) (i + 1) = i + 1 := by
        apply plateauEnd_stop
        rintro ⟨h1, h2⟩
        exact hadj i hlt h2.symm
      have hr1 : List.range' i (x.length - 1 - i) =
          i :: List.range' (i + 1) (x.length - 1 - i - 1) := by
        have h := List.range'_succ i (x.length - 1 - i - 1) 1
        rw [show x.length - 1 - i - 1 + 1 = x.length - 1 - i by omega] at h
        simpa using h
      by_cases hrise : x.getD (i - 1) 0 < x.getD i 0
      case neg =>
        simp only [findPeaksAux]
        rw [if_pos hlt, if_neg hrise, ih (i + 1) (by omega) (by omega), hr1,
          List.filter_cons_of_neg (by
            simp only [isStrictMax, Bool.and_eq_true, decide_eq_true_eq]
            rintro ⟨⟨_, hx⟩, _⟩
            exact hrise hx)]
        rw [show x.length - 1 - (i + 1) = x.length - 1 - i - 1 by omega]
      case pos =>
        by_cases hfall : x.getD (i + 1) 0 < x.getD i 0
        case pos =>
          simp only [findPeaksAux]
          rw [if_pos hlt, if_pos hrise, hia, if_pos hfall,
            show (i + (i + 1 - 1)) / 2 = i by omega,
            ih (i + 1 + 1) (by omega) (by omega), hr1,
            List.filter_cons_of_pos (by
              simp only [isStrictMax, Bool.and_eq_true, decide_eq_true_eq]
              exact ⟨⟨⟨hi, by omega⟩, hrise⟩, hfall⟩)]
          congr 1
          by_cases h2 : i + 1 < x.length - 1
          · have hr2 : List.range' (i + 1) (x.length - 1 - i - 1) =
                (i + 1) :: List.range' (i + 1 + 1) (x.length - 1 - (i + 1 + 1)) := by
              have h := List.range'_succ (i + 1) (x.length - 1 - (i + 1 + 1)) 1
              rw [show x.length - 1 - (i + 1 + 1) + 1 = x.length - 1 - i - 1
                by omega] at h
              simpa using h
            rw [hr2, List.filter_cons_of_neg (by
              simp only [isStrictMax, Bool.and_eq_true, decide_eq_true_eq]
              rintro ⟨⟨⟨_, _⟩, hx⟩, _⟩
              rw [show i + 1 - 1 = i by omega] at hx
              exact absurd hx (not_lt.mpr (le_of_lt hfall)))]
          · rw [show x.length - 1 - (i + 1 + 1) = 0 by omega,
              show x.length - 1 - i - 1 = 0 by omega]
            rfl
        case neg =>
          simp only [findPeaksAux]
          rw [if_pos hlt, if_pos hrise, hia, if_neg hfall,
            ih (i + 1) (by omega) (by omega), hr1,
            List.filter_cons_of_neg (by
              simp only [isStrictMax, Bool.and_eq_true, decide_eq_true_eq]
              rintro ⟨_, hx⟩
              exact hfall hx)]
          rw [show x.length - 1 - (i + 1) = x.length - 1 - i - 1 by omega]

lemma strictPeaks_eq_range' (x : List ℚ) :
    strictPeaks x = (List.range' 1 (x.length - 1 - 1)).filter (isStrictMax x) := by
  unfold strictPeaks
  cases hx : x.length with
  | zero => rfl
  | succ n =>
    rw [List.range_eq_range']
    have h01 : List.range' 0 (n + 1) = 0 :: List.range' 1 n := by
      simpa using List.range'_succ 0 n 1
    rw [h01, List.filter_cons_of_neg (by simp [isStrictMax])]
    cases n with
    | zero => rfl
    | succ k =>
      have hconcat : List.range' 1 (k + 1) = List.range' 1 k ++ [1 + k] := by
        simpa using @List.range'_concat 1 1 k
      rw [hconcat, List.filter_append,
        List.filter_cons_of_neg (by
          simp only [isStrictMax, Bool.and_eq_true, decide_eq_true_eq]
          rintro ⟨⟨⟨_, h2⟩, _⟩, _⟩
          rw [hx] at h2
          omega),
        show k + 1 + 1 - 1 - 1 = k by omega]
      simp

instance (x : List ℚ) : Decidable (AdjacentDistinct x) := by
  unfold AdjacentDistinct
  infer_instance

instance (x : List ℚ) : Decidable (MonotonicList x) := by
  unfold MonotonicList
  infer_instance

/-- C8 amended: `sig.find_peaks` coincides with the claim's minimal
strict-local-maximum definition on every series without equal consecutive
samples; on a plateau (a run of equal values bounded by strictly smaller
values on both sides) it instead reports the plateau's middle index, so the
claim's characterisation fails exactly there.  Its second half stands as
claimed: on any monotonic series of any length the returned set is empty. -/
theorem find_peaks_spec (x : List ℚ) :
    (AdjacentDistinct x → sig_find_peaks x = strictPeaks x) ∧
    (MonotonicList x → sig_find_peaks x = []) := by
  constructor
  · intro hadj
    unfold sig_find_peaks
    rw [findPeaksAux_strict x hadj x.length 1 (by omega) (by omega)]
    exact (strictPeaks_eq_range' x).symm
  · exact sig_find_peaks_monotone x

/-- Witness for C8's amended theorem: a strict peak series `[0, 1, 0]` and a
non-decreasing series `[0, 0, 1]`. -/
theorem find_peaks_spec_witness :
    (AdjacentDistinct [(0 : ℚ), 1, 0] ∧
      sig_find_peaks [(0 : ℚ), 1, 0] = strictPeaks [(0 : ℚ), 1, 0]) ∧
    (MonotonicList [(0 : ℚ), 0, 1] ∧ sig_find_peaks [(0 : ℚ), 0, 1] = []) :=
  ⟨⟨by decide, (find_peaks_spec [(0 : ℚ), 1, 0]).1 (by decide)⟩,
    ⟨by decide, (find_peaks_spec [(0 : ℚ), 0, 1]).2 (by decide)⟩⟩
